import Mathlib

/-!
Verification development for the multiplayer blackjack room engine
(`src/unnamed/part_001`, identity-keyed server variant, together with the
shared deck helpers of `src/utils/deck.ts`).

The data model and the operations are embedded shallowly:

* JS numbers that hold chip balances and wagers become `Int` (so that a
  missed validation could drive a balance negative, as it could in the
  source); card values and hand totals become `Nat`.
* The card ids (`id` fields), which the source generates from
  `Math.random`/`Date.now` purely for UI reconciliation and never reads in
  any rule, are dropped from the embedded records.
* Card draws are abstracted by an infinite stream `σ : Nat → Card` together
  with a next-draw index: `drawCard` in the source pops from the shoe and
  transparently rebuilds + reshuffles it when fewer than 20 cards remain,
  so a draw always succeeds and yields an effectively arbitrary card; the
  stream is exactly that sequence of produced cards.
* The dealer's unbounded draw loop is embedded with explicit fuel
  (`dealerFuel`); the termination theorem shows the fuel is never
  exhausted on cards a shoe can produce.
* The JS `Map` of players (keyed by `playerId`, insertion-ordered) becomes
  a `List RoomPlayer`, each record carrying its `playerId` as in the
  source interface.
-/

namespace Blackjack

/-- `Card` of the source (suit, rank, numeric value); the UI-only `id`
field is dropped. -/
structure Card where
  suit : String
  rank : String
  value : Nat
deriving DecidableEq, Repr

/-- Decimal digits to a number, most significant first (structural
recursion, so the kernel can evaluate concrete ranks). -/
def digitsToNat : List Char → Nat → Nat
  | [], acc => acc
  | c :: cs, acc => digitsToNat cs (acc * 10 + (c.toNat - '0'.toNat))

/-- `parseInt` on a rank string: its number when it is all digits. -/
def parseIntNat (s : String) : Option Nat :=
  if s.data ≠ [] ∧ s.data.all Char.isDigit then some (digitsToNat s.data 0)
  else none

/-- `cardValue` of the source: ace 11, face cards 10, a numeral rank its
numeral (`parseInt`). -/
def cardValue (rank : String) : Nat :=
  if rank = "A" then 11
  else if rank = "K" ∨ rank = "Q" ∨ rank = "J" then 10
  else (parseIntNat rank).getD 0

/-- A card as `createDeck` builds one: the value is precomputed from the
rank. -/
def mkCard (suit rank : String) : Card :=
  { suit := suit, rank := rank, value := cardValue rank }

/-- Sum of the stored card values, aces still counted as 11 (the first
accumulation loop of `calculateHandValue`). -/
def rawTotal (cards : List Card) : Nat :=
  (cards.map Card.value).sum

/-- Number of aces in the hand (the `aces` counter of
`calculateHandValue`). -/
def aceCount (cards : List Card) : Nat :=
  cards.countP (fun c => c.rank = "A")

/-- The `while (total > 21 && aces > 0) { total -= 10; aces--; }` loop of
`calculateHandValue`, recursing on the ace counter. -/
def adjustAces : Nat → Nat → Nat × Nat
  | total, 0 => (total, 0)
  | total, aces + 1 =>
    if 21 < total then adjustAces (total - 10) aces else (total, aces + 1)

/-- `calculateHandValue` of the source: `(total, isSoft)`, where `isSoft`
is true iff an ace still counts as 11 after the adjustment loop. -/
def calculateHandValue (cards : List Card) : Nat × Bool :=
  let r := adjustAces (rawTotal cards) (aceCount cards)
  (r.1, decide (0 < r.2))

/-- `isStrictPair` of the source: exactly 2 cards of equal rank. -/
def isStrictPair (cards : List Card) : Bool :=
  match cards with
  | [a, b] => a.rank = b.rank
  | _ => false

/-- `isPair` of `src/utils/deck.ts`: exactly 2 cards of equal numeric
value (this looser predicate is not the one split eligibility uses). -/
def isPair (cards : List Card) : Bool :=
  match cards with
  | [a, b] => a.value = b.value
  | _ => false

/-- Hand status union of the source. -/
inductive HandStatus where
  | playing | standing | busted | blackjack | doubled
deriving DecidableEq, Repr

/-- Settlement result union of the source. -/
inductive HandResult where
  | win | loss | push
deriving DecidableEq, Repr

/-- `PlayerHand` of the source (UI-only `id` dropped). -/
structure PlayerHand where
  cards : List Card
  bet : Int
  status : HandStatus
  result : Option HandResult := none
deriving DecidableEq, Repr

/-- `RoomPlayer` of the identity-keyed server variant. -/
structure RoomPlayer where
  playerId : String
  socketId : String
  name : String
  chips : Int
  hands : List PlayerHand
  currentBet : Int
  hasBet : Bool
  isDone : Bool
  disconnected : Bool
deriving DecidableEq, Repr

/-- Room phase union of the source. -/
inductive RoomPhase where
  | lobby | betting | player_turns | dealer_turn | results
deriving DecidableEq, Repr

/-- `Room` of the source; the `deck` is abstracted by the draw stream (see
the module comment), players are the insertion-ordered `Map` values. -/
structure Room where
  code : String
  hostId : String
  phase : RoomPhase
  players : List RoomPlayer
  dealerHand : List Card
  activePlayerId : Option String
deriving DecidableEq, Repr

/-- `STARTING_CHIPS` of the source. -/
def STARTING_CHIPS : Int := 1000

/-- The fresh `RoomPlayer` record that `create-room` and `join-room` seat. -/
def mkRoomPlayer (pid sockId name : String) : RoomPlayer :=
  { playerId := pid, socketId := sockId, name := name,
    chips := STARTING_CHIPS, hands := [], currentBet := 0,
    hasBet := false, isDone := false, disconnected := false }

/-- `handleHit` of the source: append the drawn card `c`; on a total over
21 lock in busted/loss at once. (The caller guarantees the hand exists;
an absent index is a no-op here, mirroring the handler's `!hand` guard.) -/
def handleHit (c : Card) (p : RoomPlayer) (hi : Nat) : RoomPlayer :=
  match p.hands[hi]? with
  | none => p
  | some hand =>
    let cards := hand.cards ++ [c]
    let hand' :=
      if 21 < (calculateHandValue cards).1 then
        { hand with cards := cards, status := .busted, result := some .loss }
      else
        { hand with cards := cards }
    { p with hands := p.hands.set hi hand' }

/-- `handleStand` of the source. -/
def handleStand (p : RoomPlayer) (hi : Nat) : RoomPlayer :=
  match p.hands[hi]? with
  | none => p
  | some hand =>
    { p with hands := p.hands.set hi { hand with status := .standing } }

/-- `handleDouble` of the source: only on a 2-card hand with
`chips ≥ bet`; deduct the wager again, double the recorded wager, draw
exactly one card (`c`), then busted/loss on a total over 21, else
standing. -/
def handleDouble (c : Card) (p : RoomPlayer) (hi : Nat) : RoomPlayer :=
  match p.hands[hi]? with
  | none => p
  | some hand =>
    if hand.cards.length ≠ 2 then p
    else if p.chips < hand.bet then p
    else
      let cards := hand.cards ++ [c]
      let hand' :=
        if 21 < (calculateHandValue cards).1 then
          { hand with cards := cards, bet := hand.bet * 2,
                      status := .busted, result := some .loss }
        else
          { hand with cards := cards, bet := hand.bet * 2,
                      status := .standing }
      { p with chips := p.chips - hand.bet, hands := p.hands.set hi hand' }

/-- `handleSplit` of the source: only on a strict pair, with fewer than 4
hands and `chips ≥ bet`; deduct a second wager and replace hand `hi` by
two hands, each one original card plus one drawn card (`d1`, `d2`),
standing at once when the split pair is aces, else playing
(`splice(hi, 1, hand1, hand2)`). -/
def handleSplit (d1 d2 : Card) (p : RoomPlayer) (hi : Nat) : RoomPlayer :=
  match p.hands[hi]? with
  | none => p
  | some hand =>
    if ¬ isStrictPair hand.cards then p
    else if 4 ≤ p.hands.length then p
    else if p.chips < hand.bet then p
    else
      match hand.cards with
      | [c1, c2] =>
        let st : HandStatus := if c1.rank = "A" then .standing else .playing
        let hand1 : PlayerHand :=
          { cards := [c1, d1], bet := hand.bet, status := st, result := none }
        let hand2 : PlayerHand :=
          { cards := [c2, d2], bet := hand.bet, status := st, result := none }
        { p with chips := p.chips - hand.bet,
                 hands := p.hands.take hi ++ [hand1, hand2] ++ p.hands.drop (hi + 1) }
      | _ => p

/-- Player actions of the `player-action` handler. -/
inductive Action where
  | hit | stand | double | split
deriving DecidableEq, Repr

/-- The per-hand part of the `player-action` handler: the action is
dropped unless the targeted hand exists and its status is `playing`
(`if (!hand || hand.status !== 'playing') return;`), then dispatched.
`c1`/`c2` are the cards the dispatched operation would draw. -/
def playerAction (a : Action) (c1 c2 : Card) (p : RoomPlayer) (hi : Nat) : RoomPlayer :=
  match p.hands[hi]? with
  | none => p
  | some hand =>
    if hand.status ≠ .playing then p
    else
      match a with
      | .hit => handleHit c1 p hi
      | .stand => handleStand p hi
      | .double => handleDouble c1 p hi
      | .split => handleSplit c1 c2 p hi

/-- One settlement step of `resolveAllResults`'s inner loop: a hand that
already carries a result is skipped; otherwise result and chips follow
the source's case analysis (3:2 on blackjack via
`hand.bet + Math.floor(hand.bet * 1.5)`, i.e. `bet + ⌊3·bet/2⌋ − bet`
over the wager, flat 1:1 otherwise). -/
def settleHand (dealerBJ dealerBust : Bool) (dTotal : Nat)
    (chips : Int) (hand : PlayerHand) : Int × PlayerHand :=
  match hand.result with
  | some _ => (chips, hand)
  | none =>
    let pTotal := (calculateHandValue hand.cards).1
    let playerBJ : Bool := hand.status = HandStatus.blackjack
    if dealerBJ && playerBJ then
      (chips + hand.bet, { hand with result := some .push })
    else if dealerBJ then
      (chips, { hand with result := some .loss })
    else if playerBJ then
      (chips + hand.bet + (3 * hand.bet).fdiv 2, { hand with result := some .win })
    else if dealerBust then
      (chips + hand.bet * 2, { hand with result := some .win })
    else if dTotal < pTotal then
      (chips + hand.bet * 2, { hand with result := some .win })
    else if pTotal < dTotal then
      (chips, { hand with result := some .loss })
    else
      (chips + hand.bet, { hand with result := some .push })

/-- The per-player loop of `resolveAllResults`: settle the hands in order,
accumulating the chip payouts into the player's balance. -/
def resolvePlayer (dealerBJ dealerBust : Bool) (dTotal : Nat)
    (p : RoomPlayer) : RoomPlayer :=
  let acc := p.hands.foldl
    (fun (acc : Int × List PlayerHand) h =>
      ((settleHand dealerBJ dealerBust dTotal acc.1 h).1,
       acc.2 ++ [(settleHand dealerBJ dealerBust dTotal acc.1 h).2]))
    (p.chips, [])
  { p with chips := acc.1, hands := acc.2 }

/-- `resolveAllResults` of the source: enter `results`, compute dealer
bust (total over 21) and dealer blackjack (exactly 2 cards totaling 21),
then settle every player's hands. -/
def resolveAllResults (r : Room) : Room :=
  let dTotal := (calculateHandValue r.dealerHand).1
  let dealerBust : Bool := 21 < dTotal
  let dealerBJ : Bool := r.dealerHand.length = 2 ∧ dTotal = 21
  { r with phase := .results,
           players := r.players.map (resolvePlayer dealerBJ dealerBust dTotal) }

/-- The dealer drawing guard of `runDealerTurn`:
`total < 17 || (total === 17 && isSoft)` (hit soft 17). -/
def dealerShouldHit (hand : List Card) : Bool :=
  let v := calculateHandValue hand
  decide (v.1 < 17) || (decide (v.1 = 17) && v.2)

/-- The dealer drawing loop of `runDealerTurn`, with explicit fuel (the
source loop is unbounded; the termination theorem shows the fuel is never
exhausted on cards a shoe produces). Returns the final hand, the next
draw index, and whether the loop exited through its guard. -/
def dealerDrawLoop : Nat → (Nat → Card) → Nat → List Card → List Card × Nat × Bool
  | 0, _, n, hand => (hand, n, false)
  | fuel + 1, σ, n, hand =>
    if dealerShouldHit hand then dealerDrawLoop fuel σ (n + 1) (hand ++ [σ n])
    else (hand, n, true)

/-- Fuel for `dealerDrawLoop`; 25 is never exhausted (at most 17 draws can
ever be needed). -/
def dealerFuel : Nat := 25

/-- The live-hand check of `runDealerTurn`: some hand is neither busted
nor a natural blackjack. -/
def hasLiveHands (r : Room) : Bool :=
  r.players.any fun p => p.hands.any fun h =>
    h.status ≠ HandStatus.busted && h.status ≠ HandStatus.blackjack

/-- `runDealerTurn` of the source: enter `dealer_turn`, clear the active
player; draw to the H17 rule only when a live hand exists; then settle. -/
def runDealerTurn (σ : Nat → Card) (n : Nat) (r : Room) : Room × Nat :=
  let r := { r with phase := .dealer_turn, activePlayerId := none }
  let d :=
    if hasLiveHands r then
      let l := dealerDrawLoop dealerFuel σ n r.dealerHand
      (l.1, l.2.1)
    else (r.dealerHand, n)
  (resolveAllResults { r with dealerHand := d.1 }, d.2)

/-- `advanceToNextPlayer` of the source: scan roster order after the
current active player for the next not-done, not-disconnected player;
none found means the dealer's turn. (JS `indexOf` yields −1 when the
active id is absent, so the scan then starts at index 0.) -/
def advanceToNextPlayer (σ : Nat → Card) (n : Nat) (r : Room) : Room × Nat :=
  let start :=
    match r.players.findIdx? (fun p => some p.playerId = r.activePlayerId) with
    | some i => i + 1
    | none => 0
  match (r.players.drop start).find? (fun p => !p.isDone && !p.disconnected) with
  | some p => ({ r with activePlayerId := some p.playerId }, n)
  | none => runDealerTurn σ n r

/-- `removePlayer` of the source: drop the player from the roster (the
source also unregisters an emptied room, which the registry-free model
leaves implicit), transfer the host to a connected player (else the first
player), and advance the turn when the removed player was active during
`player_turns`. -/
def removePlayer (σ : Nat → Card) (n : Nat) (pid : String) (r : Room) : Room × Nat :=
  let wasActive := r.activePlayerId = some pid
  let players := r.players.filter (fun p => p.playerId ≠ pid)
  let r := { r with players := players }
  if players.isEmpty then (r, n)
  else
    let r :=
      if r.hostId = pid then
        { r with hostId :=
            match players.find? (fun p => !p.disconnected) with
            | some p => p.playerId
            | none => ((players.head?).map RoomPlayer.playerId).getD r.hostId }
      else r
    if wasActive ∧ r.phase = .player_turns then advanceToNextPlayer σ n r
    else (r, n)

/-- The reset applied to every player by `start-game` and `next-round`. -/
def clearPlayer (p : RoomPlayer) : RoomPlayer :=
  { p with hasBet := false, currentBet := 0, hands := [], isDone := false }

/-- The `start-game` handler, given the resolved sender identity: host
only, at least one seat, then reset to `betting`. -/
def startGame (r : Room) (senderId : String) : Room :=
  if r.hostId ≠ senderId then r
  else if r.players.length < 1 then r
  else
    { r with phase := .betting, dealerHand := [],
             players := r.players.map clearPlayer }

/-- The `next-round` handler, given the resolved sender identity: host
only; first remove every still-disconnected player, then reset to
`betting`. -/
def nextRound (σ : Nat → Card) (n : Nat) (r : Room) (senderId : String) : Room × Nat :=
  if r.hostId ≠ senderId then (r, n)
  else
    let rm := r.players.foldl
      (fun (acc : Room × Nat) p =>
        if p.disconnected then removePlayer σ acc.2 p.playerId acc.1 else acc)
      (r, n)
    ({ rm.1 with phase := .betting, dealerHand := [], activePlayerId := none,
                 players := rm.1.players.map clearPlayer }, rm.2)

/-- The `place-bet` handler (bet recording only; the all-bet check that
triggers `dealRound` is composed separately, as in the handler's tail):
`betting` phase, the sender's seat, no prior bet, `0 < amount ≤ chips`,
then deduct and flag. -/
def placeBet (r : Room) (pid : String) (amount : Int) : Room :=
  if r.phase ≠ .betting then r
  else
    match r.players.findIdx? (fun p => p.playerId = pid) with
    | none => r
    | some i =>
      match r.players[i]? with
      | none => r
      | some player =>
        if player.hasBet then r
        else if amount ≤ 0 ∨ player.chips < amount then r
        else
          let player' := { player with currentBet := amount,
                                       chips := player.chips - amount,
                                       hasBet := true }
          { r with players := r.players.set i player' }

/-- The per-player part of `dealRound`: a connected player gets a single
fresh 2-card hand wagering `currentBet`; a natural 21 is flagged
blackjack/done at once. -/
def dealToPlayer (σ : Nat → Card) (n : Nat) (p : RoomPlayer) : RoomPlayer × Nat :=
  if p.disconnected then (p, n)
  else
    let c1 := σ n
    let c2 := σ (n + 1)
    let bj := (calculateHandValue [c1, c2]).1 = 21
    let hand : PlayerHand :=
      { cards := [c1, c2], bet := p.currentBet,
        status := if bj then .blackjack else .playing, result := none }
    ({ p with hands := [hand], isDone := if bj then true else p.isDone }, n + 2)

/-- `dealRound` of the source: enter `player_turns`, deal 2 cards to each
connected player then 2 to the dealer; a dealer natural settles the round
at once; else the first connected not-done player becomes active, or the
dealer's turn starts when every player already has blackjack. -/
def dealRound (σ : Nat → Card) (n : Nat) (r : Room) : Room × Nat :=
  let r := { r with phase := .player_turns }
  let acc := r.players.foldl
    (fun (acc : List RoomPlayer × Nat) p =>
      let d := dealToPlayer σ acc.2 p
      (acc.1 ++ [d.1], d.2))
    ([], n)
  let players := acc.1
  let dealerHand := [σ acc.2, σ (acc.2 + 1)]
  let n' := acc.2 + 2
  let r := { r with players := players, dealerHand := dealerHand }
  if (calculateHandValue dealerHand).1 = 21 then (resolveAllResults r, n')
  else
    match players.find? (fun p => !p.disconnected && !p.isDone) with
    | some fa => ({ r with activePlayerId := some fa.playerId }, n')
    | none => runDealerTurn σ n' r

/-- The `join-room` handler: the input room (already looked up by code,
`none` when absent), the rejection checks in source order, else the
seated player appended. Returns the resulting room state (unchanged on
rejection) and the error reason, if any. -/
def joinRoom (room? : Option Room) (name pid sockId : String) :
    Option Room × Option String :=
  match room? with
  | none => (none, some "Room not found")
  | some r =>
    if r.phase ≠ .lobby then (some r, some "Game already in progress")
    else if 7 ≤ r.players.length then (some r, some "Room is full (max 7)")
    else if r.players.any (fun p => p.playerId = pid) then
      (some r, some "Already in this room")
    else
      (some { r with players := r.players ++ [mkRoomPlayer pid sockId name] }, none)

/-- A card as the shoe produces it: at least 2 points, and an ace is worth
11 before adjustment (`createDeck` builds only such cards). -/
def validCard (c : Card) : Prop :=
  2 ≤ c.value ∧ (c.rank = "A" → c.value = 11)

instance (c : Card) : Decidable (validCard c) := by
  unfold validCard; infer_instance

/-- The least total a hand can stand for: every ace counted as 1 (11 − 10
for shoe cards). Proof device for the dealer-loop termination measure. -/
def hardMinTotal (cards : List Card) : Nat :=
  (cards.map fun c => if c.rank = "A" then c.value - 10 else c.value).sum

/-- Settlement result as the claim words it (a definition written from
the spec's case analysis, to be compared with `resolveAllResults`):
dealer and player natural blackjack → push; dealer blackjack alone →
loss; player blackjack alone → win; dealer bust → win; else by total
comparison. -/
def specResult (dealerBJ playerBJ dealerBust : Bool) (pTotal dTotal : Nat) :
    HandResult :=
  if dealerBJ && playerBJ then .push
  else if dealerBJ then .loss
  else if playerBJ then .win
  else if dealerBust then .win
  else if dTotal < pTotal then .win
  else if pTotal < dTotal then .loss
  else .push

/-- Chip payout as the claim words it: push returns the wager, a loss
pays nothing, a natural blackjack pays `wager + ⌊wager × 1.5⌋` (3:2), any
other win pays `2 × wager`. -/
def specPayout (dealerBJ playerBJ dealerBust : Bool) (pTotal dTotal : Nat)
    (bet : Int) : Int :=
  if dealerBJ && playerBJ then bet
  else if dealerBJ then 0
  else if playerBJ then bet + (3 * bet).fdiv 2
  else if dealerBust then bet * 2
  else if dTotal < pTotal then bet * 2
  else if pTotal < dTotal then 0
  else bet

/-- Per-hand settlement in the claim's terms: a hand that already carries
a result is untouched, any other gets `specResult`. -/
def settleSpecHand (dealerBJ dealerBust : Bool) (dTotal : Nat)
    (h : PlayerHand) : PlayerHand :=
  if h.result.isSome then h
  else
    { h with result := some (specResult dealerBJ
        (decide (h.status = HandStatus.blackjack)) dealerBust
        (calculateHandValue h.cards).1 dTotal) }

/-- Per-hand chip payout in the claim's terms: nothing for an
already-settled hand, `specPayout` otherwise. -/
def specHandPayout (dealerBJ dealerBust : Bool) (dTotal : Nat)
    (h : PlayerHand) : Int :=
  if h.result.isSome then 0
  else specPayout dealerBJ (decide (h.status = HandStatus.blackjack))
    dealerBust (calculateHandValue h.cards).1 dTotal h.bet

/-- The chip-safety invariant of one player: a non-negative balance, a
non-negative recorded bet, and non-negative wagers on every hand. -/
def InvPlayer (p : RoomPlayer) : Prop :=
  0 ≤ p.chips ∧ 0 ≤ p.currentBet ∧ ∀ h ∈ p.hands, 0 ≤ h.bet

/-- The chip-safety invariant over the whole roster. -/
def InvRoom (r : Room) : Prop :=
  ∀ p ∈ r.players, InvPlayer p

/-- Roster view used to track `next-round`'s removals: the identity and
disconnected flag of each seat, in roster order. -/
def rosterView (r : Room) : List (String × Bool) :=
  r.players.map fun p => (p.playerId, p.disconnected)

/-- Concrete player used by the witnesses: a standing `[K♦, 9♦]` (19)
wagering 10, chips 90. -/
def samplePlayer : RoomPlayer :=
  { playerId := "p1", socketId := "s1", name := "n1", chips := 90,
    hands := [{ cards := [mkCard "♦" "K", mkCard "♦" "9"], bet := 10,
                status := HandStatus.standing, result := none }],
    currentBet := 10, hasBet := true, isDone := true, disconnected := false }

/-- Concrete room used by the witnesses: dealer `[K♠, Q♥]` (20), one
seated `samplePlayer`. -/
def sampleRoom : Room :=
  { code := "1000", hostId := "p1", phase := RoomPhase.dealer_turn,
    players := [samplePlayer], dealerHand := [mkCard "♠" "K", mkCard "♥" "Q"],
    activePlayerId := none }

/-- Concrete player used by the double/split witnesses: a playing
`[8♦, 8♥]` pair wagering 10, chips 100. -/
def samplePairPlayer : RoomPlayer :=
  { playerId := "p2", socketId := "s2", name := "n2", chips := 100,
    hands := [{ cards := [mkCard "♦" "8", mkCard "♥" "8"], bet := 10,
                status := HandStatus.playing, result := none }],
    currentBet := 10, hasBet := true, isDone := false, disconnected := false }

/-- Concrete player used by the split-aces witness: a playing `[A♦, A♥]`
pair wagering 10, chips 100. -/
def sampleAcesPlayer : RoomPlayer :=
  { playerId := "p3", socketId := "s3", name := "n3", chips := 100,
    hands := [{ cards := [mkCard "♦" "A", mkCard "♥" "A"], bet := 10,
                status := HandStatus.playing, result := none }],
    currentBet := 10, hasBet := true, isDone := false, disconnected := false }

/-! ### Helper lemmas: the ace-adjustment loop -/

lemma rawTotal_cons (c : Card) (l : List Card) :
    rawTotal (c :: l) = c.value + rawTotal l := by
  simp [rawTotal]

lemma aceCount_cons (c : Card) (l : List Card) :
    aceCount (c :: l) = aceCount l + if c.rank = "A" then 1 else 0 := by
  simp [aceCount, List.countP_cons]

lemma hardMinTotal_cons (c : Card) (l : List Card) :
    hardMinTotal (c :: l)
      = (if c.rank = "A" then c.value - 10 else c.value) + hardMinTotal l := by
  simp [hardMinTotal]

lemma hardMinTotal_append_one (l : List Card) (c : Card) :
    hardMinTotal (l ++ [c])
      = hardMinTotal l + (if c.rank = "A" then c.value - 10 else c.value) := by
  simp [hardMinTotal]

/-- Full characterisation of the `while (total > 21 && aces > 0)` loop:
the remaining ace counter never grows, exactly the subtracted tens are
missing from the total, a positive remaining counter forces a total of at
most 21, and every earlier state of the loop had a total above 21. -/
lemma adjustAces_spec (aces total : Nat) :
    (adjustAces total aces).2 ≤ aces ∧
    (adjustAces total aces).1 + 10 * (aces - (adjustAces total aces).2) = total ∧
    (0 < (adjustAces total aces).2 → (adjustAces total aces).1 ≤ 21) ∧
    ∀ m, (adjustAces total aces).2 < m → m ≤ aces →
      21 < (adjustAces total aces).1 + 10 * (m - (adjustAces total aces).2) := by
  induction aces generalizing total with
  | zero => refine ⟨le_rfl, by simp [adjustAces], by simp [adjustAces], ?_⟩
            simp only [adjustAces]
            omega
  | succ a ih =>
    by_cases h : 21 < total
    · have hrec := ih (total - 10)
      obtain ⟨h1, h2, h3, h4⟩ := hrec
      simp only [adjustAces, if_pos h]
      refine ⟨h1.trans (Nat.le_succ a), by omega, h3, ?_⟩
      intro m hm1 hm2
      rcases Nat.lt_or_ge m (a + 1) with hm | hm
      · exact h4 m hm1 (by omega)
      · have hma : m = a + 1 := by omega
        subst hma
        omega
    · simp only [adjustAces, if_neg h]
      refine ⟨le_rfl, by omega, fun _ => by omega, fun m hm1 hm2 => by omega⟩

/-- `calculateHandValue` in terms of the adjustment count `k`. -/
lemma calculateHandValue_spec (cards : List Card) :
    ∃ k, k ≤ aceCount cards ∧
      (calculateHandValue cards).1 + 10 * k = rawTotal cards ∧
      ((calculateHandValue cards).2 = true ↔ k < aceCount cards) ∧
      (k < aceCount cards → (calculateHandValue cards).1 ≤ 21) ∧
      ∀ j, j < k → 21 < (calculateHandValue cards).1 + 10 * (k - j) := by
  obtain ⟨h1, h2, h3, h4⟩ := adjustAces_spec (aceCount cards) (rawTotal cards)
  set a := (adjustAces (rawTotal cards) (aceCount cards)).2 with ha
  refine ⟨aceCount cards - a, Nat.sub_le _ _, ?_, ?_, ?_, ?_⟩
  · simpa [calculateHandValue] using h2
  · simp only [calculateHandValue, decide_eq_true_eq]
    omega
  · intro hk
    simp only [calculateHandValue]
    exact h3 (by omega)
  · intro j hj
    have := h4 (aceCount cards - j) (by omega) (by omega)
    simp only [calculateHandValue]
    omega

/-- With shoe cards only, the raw total splits into the hard minimum plus
ten per ace. -/
lemma rawTotal_eq_hard (cards : List Card) (h : ∀ c ∈ cards, validCard c) :
    rawTotal cards = hardMinTotal cards + 10 * aceCount cards := by
  induction cards with
  | nil => simp [rawTotal, hardMinTotal, aceCount]
  | cons c l ihl =>
    have hc := h c (List.mem_cons_self c l)
    have hl := ihl fun x hx => h x (List.mem_cons_of_mem c hx)
    rw [rawTotal_cons, aceCount_cons, hardMinTotal_cons, hl]
    by_cases hA : c.rank = "A"
    · have := hc.2 hA
      simp [hA]; omega
    · simp [hA]; omega

/-- The computed total never falls below the hard minimum, and a soft hand
exceeds it by at least 10. -/
lemma hard_le_total (cards : List Card) (h : ∀ c ∈ cards, validCard c) :
    hardMinTotal cards ≤ (calculateHandValue cards).1 ∧
    ((calculateHandValue cards).2 = true →
      hardMinTotal cards + 10 ≤ (calculateHandValue cards).1) := by
  obtain ⟨k, hk1, hk2, hk3, _, _⟩ := calculateHandValue_spec cards
  have hr := rawTotal_eq_hard cards h
  constructor
  · omega
  · intro hs
    have := hk3.mp hs
    omega

/-- When the dealer guard still fires, the hard minimum is at most 16. -/
lemma guard_hard_le (cards : List Card) (h : ∀ c ∈ cards, validCard c)
    (hg : dealerShouldHit cards = true) : hardMinTotal cards ≤ 16 := by
  obtain ⟨h1, h2⟩ := hard_le_total cards h
  simp only [dealerShouldHit, Bool.or_eq_true, Bool.and_eq_true,
    decide_eq_true_eq] at hg
  rcases hg with hlt | ⟨h17, hsoft⟩
  · omega
  · have := h2 hsoft
    omega

/-- Appending a shoe card raises the hard minimum by at least 1. -/
lemma hard_append_ge (l : List Card) (c : Card) (hc : validCard c) :
    hardMinTotal l + 1 ≤ hardMinTotal (l ++ [c]) := by
  rw [hardMinTotal_append_one]
  by_cases hA : c.rank = "A"
  · have := hc.2 hA
    simp [hA]; omega
  · have := hc.1
    simp [hA]; omega

/-! ### Dealer loop termination -/

/-- With shoe cards in the hand and on the stream, enough fuel makes the
dealer loop exit through its guard, with the guard false on the final
hand (which again holds only shoe cards). -/
lemma dealerDrawLoop_ok (σ : Nat → Card) (hσ : ∀ m, validCard (σ m)) :
    ∀ fuel hand n, (∀ c ∈ hand, validCard c) →
      18 ≤ hardMinTotal hand + fuel → 1 ≤ fuel →
      (dealerDrawLoop fuel σ n hand).2.2 = true ∧
      dealerShouldHit (dealerDrawLoop fuel σ n hand).1 = false ∧
      ∀ c ∈ (dealerDrawLoop fuel σ n hand).1, validCard c := by
  intro fuel
  induction fuel with
  | zero => intro hand n _ _ hf; omega
  | succ f ih =>
    intro hand n hv hfuel _
    by_cases hg : dealerShouldHit hand = true
    · have hhard := guard_hard_le hand hv hg
      have hv' : ∀ c ∈ hand ++ [σ n], validCard c := by
        intro c hc
        rcases List.mem_append.mp hc with hc | hc
        · exact hv c hc
        · simp only [List.mem_singleton] at hc
          subst hc; exact hσ n
      have hstep := hard_append_ge hand (σ n) (hσ n)
      have := ih (hand ++ [σ n]) (n + 1) hv' (by omega) (by omega)
      simpa [dealerDrawLoop, hg] using this
    · simp only [Bool.not_eq_true] at hg
      rw [dealerDrawLoop, if_neg (by simp [hg])]
      exact ⟨rfl, hg, hv⟩

/-! ### Claim theorems -/

/-- C2. Hand-value computation: soft-ace adjustment. For every list of
cards there is an adjustment count `k` (the number of aces knocked from
11 down to 1): `k` never exceeds the ace count, the returned total is the
raw all-aces-11 sum minus `10·k`, `isSoft` holds iff an ace still counts
as 11 (`k` < ace count), a soft result is at most 21, and every earlier
loop state exceeded 21 (so a ten is subtracted per ace exactly while the
total exceeds 21 and an ace still counts as 11). The spec's five table
entries are checked verbatim. -/
theorem C2_hand_value :
    (∀ cards : List Card, ∃ k, k ≤ aceCount cards ∧
      (calculateHandValue cards).1 + 10 * k = rawTotal cards ∧
      ((calculateHandValue cards).2 = true ↔ k < aceCount cards) ∧
      (k < aceCount cards → (calculateHandValue cards).1 ≤ 21) ∧
      ∀ j, j < k → 21 < (calculateHandValue cards).1 + 10 * (k - j)) ∧
    calculateHandValue [mkCard "♠" "A", mkCard "♥" "A"] = (12, true) ∧
    calculateHandValue [mkCard "♠" "A", mkCard "♥" "A", mkCard "♦" "9"] = (21, true) ∧
    calculateHandValue [mkCard "♠" "10", mkCard "♥" "6", mkCard "♦" "6"] = (22, false) ∧
    calculateHandValue [mkCard "♠" "A", mkCard "♥" "9"] = (20, true) ∧
    calculateHandValue [mkCard "♠" "K", mkCard "♥" "Q"] = (20, false) := by
  refine ⟨calculateHandValue_spec, ?_, ?_, ?_, ?_, ?_⟩ <;> decide

/-- C4. Pair detection for split eligibility is rank equality on exactly
2 cards: `isStrictPair` holds iff the hand is two cards of one rank; a
King with a Ten or with a Queen is not a pair and `handleSplit` never
splits such a hand (it is a no-op); two Kings are a pair (and `isPair`,
the looser value-based predicate of deck.ts that split eligibility does
not use, would accept King–Ten). -/
theorem C4_pair_detection :
    (∀ cards : List Card,
      isStrictPair cards = true ↔ ∃ a b, cards = [a, b] ∧ a.rank = b.rank) ∧
    isStrictPair [mkCard "♠" "K", mkCard "♥" "10"] = false ∧
    isStrictPair [mkCard "♠" "K", mkCard "♥" "Q"] = false ∧
    isStrictPair [mkCard "♠" "K", mkCard "♥" "K"] = true ∧
    isPair [mkCard "♠" "K", mkCard "♥" "10"] = true ∧
    (∀ (d1 d2 : Card) (p : RoomPlayer) (hi : Nat) (h : PlayerHand) (a b : Card),
      p.hands[hi]? = some h → h.cards = [a, b] → a.rank ≠ b.rank →
      handleSplit d1 d2 p hi = p) := by
  refine ⟨?_, by decide, by decide, by decide, by decide, ?_⟩
  · intro cards
    constructor
    · intro h
      match cards, h with
      | [a, b], h =>
        refine ⟨a, b, rfl, ?_⟩
        simpa [isStrictPair] using h
    · rintro ⟨a, b, rfl, hab⟩
      simp [isStrictPair, hab]
  · intro d1 d2 p hi h a b hp hcards hab
    have hpair : isStrictPair h.cards = false := by
      rw [hcards]
      simp [isStrictPair, hab]
    simp [handleSplit, hp, hpair]

/-- C3. Dealer auto-play: the loop draws exactly while the total is below
17 or is a soft 17 (the guard iff); for every starting hand and draw
stream of shoe cards the loop terminates through its guard within the
provided fuel, and the final hand stands on at least a hard 17 — a total
of 17 or more that is not a soft 17 — or has busted past 21; and the
entire drawing step is skipped (the 2 already-dealt dealer cards remain)
when every player hand is already busted or a natural blackjack. -/
theorem C3_dealer_autoplay (σ : Nat → Card) (hσ : ∀ m, validCard (σ m)) :
    (∀ hand : List Card, dealerShouldHit hand = true ↔
      ((calculateHandValue hand).1 < 17 ∨
       ((calculateHandValue hand).1 = 17 ∧ (calculateHandValue hand).2 = true))) ∧
    (∀ (hand : List Card) (n : Nat), (∀ c ∈ hand, validCard c) →
      (dealerDrawLoop dealerFuel σ n hand).2.2 = true ∧
      ((17 ≤ (calculateHandValue (dealerDrawLoop dealerFuel σ n hand).1).1 ∧
        ((calculateHandValue (dealerDrawLoop dealerFuel σ n hand).1).1 = 17 →
          (calculateHandValue (dealerDrawLoop dealerFuel σ n hand).1).2 = false)) ∨
       21 < (calculateHandValue (dealerDrawLoop dealerFuel σ n hand).1).1)) ∧
    (∀ (r : Room) (n : Nat),
      (∀ p ∈ r.players, ∀ h ∈ p.hands,
        h.status = HandStatus.busted ∨ h.status = HandStatus.blackjack) →
      ((runDealerTurn σ n r).1).dealerHand = r.dealerHand) := by
  refine ⟨?_, ?_, ?_⟩
  · intro hand
    simp [dealerShouldHit]
  · intro hand n hv
    obtain ⟨hok, hstop, _⟩ :=
      dealerDrawLoop_ok σ hσ dealerFuel hand n hv
        (by have : 18 ≤ dealerFuel := by decide
            omega)
        (by decide)
    refine ⟨hok, Or.inl ?_⟩
    simp only [dealerShouldHit, Bool.or_eq_false_iff, Bool.and_eq_false_iff,
      decide_eq_false_iff_not, Nat.not_lt] at hstop
    rcases hstop with ⟨h17, h17s⟩
    refine ⟨h17, fun he => ?_⟩
    rcases h17s with h | h
    · exact absurd he h
    · exact Bool.eq_false_iff.mpr (by simp [h])
  · intro r n hall
    have hlive : hasLiveHands { r with phase := RoomPhase.dealer_turn, activePlayerId := none } = false := by
      simp only [hasLiveHands, List.any_eq_false]
      intro p hp hany
      rw [List.any_eq_true] at hany
      obtain ⟨h, hh, hcond⟩ := hany
      rcases hall p hp h hh with hs | hs <;> simp [hs] at hcond
    simp only [runDealerTurn, hlive, Bool.false_eq_true, if_false]
    rfl

/-- Witness for C3 at a concrete input: an all-fives stream and the
dealer's soft 17 `[A♠, 6♠]`; the loop exits through its guard. -/
theorem C3_witness :
    (dealerDrawLoop dealerFuel (fun _ => mkCard "♠" "5") 0
      [mkCard "♠" "A", mkCard "♠" "6"]).2.2 = true :=
  ((C3_dealer_autoplay (fun _ => mkCard "♠" "5")
      (fun _ => show validCard (mkCard "♠" "5") by decide)).2.1
    [mkCard "♠" "A", mkCard "♠" "6"] 0 (by decide)).1

/-! ### Settlement characterisation -/

lemma settleHand_eq (dBJ dB : Bool) (dT : Nat) (chips : Int) (h : PlayerHand) :
    settleHand dBJ dB dT chips h
      = (chips + specHandPayout dBJ dB dT h, settleSpecHand dBJ dB dT h) := by
  cases hres : h.result with
  | some v =>
    simp [settleHand, specHandPayout, settleSpecHand, hres]
  | none =>
    simp only [settleHand, specHandPayout, settleSpecHand, specResult,
      specPayout, hres, Option.isSome_none, Bool.false_eq_true, if_false]
    split_ifs <;> refine Prod.ext ?_ ?_ <;> simp [add_assoc]

lemma settle_foldl (dBJ dB : Bool) (dT : Nat) :
    ∀ (hands : List PlayerHand) (chips : Int) (acc : List PlayerHand),
      hands.foldl
        (fun (acc : Int × List PlayerHand) h =>
          ((settleHand dBJ dB dT acc.1 h).1,
           acc.2 ++ [(settleHand dBJ dB dT acc.1 h).2]))
        (chips, acc)
      = (chips + (hands.map (specHandPayout dBJ dB dT)).sum,
         acc ++ hands.map (settleSpecHand dBJ dB dT)) := by
  intro hands
  induction hands with
  | nil => intro chips acc; simp
  | cons h t ih =>
    intro chips acc
    simp only [List.foldl_cons]
    rw [settleHand_eq, ih]
    refine Prod.ext ?_ ?_ <;>
      simp [List.map_cons, List.sum_cons, add_assoc]

lemma resolvePlayer_eq (dBJ dB : Bool) (dT : Nat) (p : RoomPlayer) :
    resolvePlayer dBJ dB dT p
      = { p with chips := p.chips + (p.hands.map (specHandPayout dBJ dB dT)).sum,
                 hands := p.hands.map (settleSpecHand dBJ dB dT) } := by
  unfold resolvePlayer
  rw [settle_foldl]
  simp

lemma settleSpecHand_isSome (dBJ dB : Bool) (dT : Nat) (h : PlayerHand) :
    (settleSpecHand dBJ dB dT h).result.isSome = true := by
  unfold settleSpecHand
  split
  · assumption
  · simp

lemma settleSpecHand_settled (dBJ dB : Bool) (dT : Nat) (h : PlayerHand)
    (hs : h.result.isSome = true) : settleSpecHand dBJ dB dT h = h := by
  simp [settleSpecHand, hs]

lemma specHandPayout_settled (dBJ dB : Bool) (dT : Nat) (h : PlayerHand)
    (hs : h.result.isSome = true) : specHandPayout dBJ dB dT h = 0 := by
  simp [specHandPayout, hs]

/-- C1. `resolveAllResults` realises, hand by hand, exactly the claim's
case analysis on every hand that carries no prior result: each such hand
of player `i` gets `specResult` (dealer-and-player blackjack → push,
dealer blackjack alone → loss, player blackjack alone → win at 3:2,
dealer bust → win, else by total comparison), and the player's chips grow
by the sum of the corresponding `specPayout`s (wager back on push,
nothing on loss, `wager + ⌊wager × 1.5⌋` on blackjack, `2 × wager` on any
other win). -/
theorem C1_settlement (r : Room) (i : Nat) (p : RoomPlayer)
    (hp : r.players[i]? = some p) :
    ∃ p', (resolveAllResults r).players[i]? = some p' ∧
      p'.chips = p.chips + (p.hands.map (specHandPayout
        (decide (r.dealerHand.length = 2 ∧ (calculateHandValue r.dealerHand).1 = 21))
        (decide (21 < (calculateHandValue r.dealerHand).1))
        (calculateHandValue r.dealerHand).1)).sum ∧
      p'.hands = p.hands.map (settleSpecHand
        (decide (r.dealerHand.length = 2 ∧ (calculateHandValue r.dealerHand).1 = 21))
        (decide (21 < (calculateHandValue r.dealerHand).1))
        (calculateHandValue r.dealerHand).1) ∧
      ∀ (j : Nat) (h : PlayerHand), p.hands[j]? = some h → h.result = none →
        p'.hands[j]? = some { h with result := some (specResult
          (decide (r.dealerHand.length = 2 ∧ (calculateHandValue r.dealerHand).1 = 21))
          (decide (h.status = HandStatus.blackjack))
          (decide (21 < (calculateHandValue r.dealerHand).1))
          (calculateHandValue h.cards).1
          (calculateHandValue r.dealerHand).1) } := by
  refine ⟨resolvePlayer
      (decide (r.dealerHand.length = 2 ∧ (calculateHandValue r.dealerHand).1 = 21))
      (decide (21 < (calculateHandValue r.dealerHand).1))
      (calculateHandValue r.dealerHand).1 p, ?_, ?_, ?_, ?_⟩
  · simp only [resolveAllResults, List.getElem?_map, hp, Option.map_some']
  · simp [resolvePlayer_eq]
  · simp [resolvePlayer_eq]
  · intro j h hj hres
    rw [resolvePlayer_eq]
    simp only [List.getElem?_map, hj, Option.map_some', settleSpecHand, hres,
      Option.isSome_none, Bool.false_eq_true, if_false]

/-- Witness for C1: dealer `[K♠, Q♥]` (20), one player holding a standing
`[K♦, 9♦]` (19) wagering 10 with no prior result; settlement produces a
player record at seat 0. -/
theorem C1_witness :
    ∃ p', (resolveAllResults sampleRoom).players[0]? = some p' := by
  obtain ⟨p', h1, _, _, _⟩ := C1_settlement sampleRoom 0 samplePlayer rfl
  exact ⟨p', h1⟩

/-- Room structure update that only re-asserts the phase is a no-op when
the phase already has that value. -/
lemma room_phase_eta (x : Room) (hx : x.phase = RoomPhase.results) :
    Room.mk x.code x.hostId RoomPhase.results x.players x.dealerHand
      x.activePlayerId = x := by
  cases x
  simp_all

/-- C8. Settlement is idempotent: a hand that already carries a result is
skipped, so a second `resolveAllResults` run changes nothing — no hand's
result, no chip balance, no field of the room at all. -/
theorem C8_settlement_idempotent (r : Room) :
    resolveAllResults (resolveAllResults r) = resolveAllResults r := by
  have hsettled : ∀ p' ∈ (resolveAllResults r).players,
      ∀ h ∈ p'.hands, h.result.isSome = true := by
    intro p' hp' h hh
    simp only [resolveAllResults, List.mem_map] at hp'
    obtain ⟨p, _, hpe⟩ := hp'
    rw [← hpe, resolvePlayer_eq] at hh
    simp only [List.mem_map] at hh
    obtain ⟨h0, _, he⟩ := hh
    rw [← he]
    exact settleSpecHand_isSome _ _ _ h0
  have hfix : ∀ dBJ dB dT, ∀ p' ∈ (resolveAllResults r).players,
      resolvePlayer dBJ dB dT p' = p' := by
    intro dBJ dB dT p' hp'
    rw [resolvePlayer_eq]
    have h1 : p'.hands.map (settleSpecHand dBJ dB dT) = p'.hands := by
      rw [List.map_congr_left
        (fun h hh => settleSpecHand_settled dBJ dB dT h (hsettled p' hp' h hh))]
      exact List.map_id p'.hands
    have h2 : (p'.hands.map (specHandPayout dBJ dB dT)).sum = 0 := by
      rw [List.map_congr_left
        (fun h hh => specHandPayout_settled dBJ dB dT h (hsettled p' hp' h hh))]
      simp
    rw [h1, h2]
    cases p'
    simp
  have hdh : (resolveAllResults r).dealerHand = r.dealerHand := rfl
  have hph : (resolveAllResults r).phase = RoomPhase.results := rfl
  have hmap : ∀ dBJ dB dT,
      (resolveAllResults r).players.map (resolvePlayer dBJ dB dT)
        = (resolveAllResults r).players := by
    intro dBJ dB dT
    rw [List.map_congr_left (hfix dBJ dB dT)]
    exact List.map_id _
  show Room.mk _ _ RoomPhase.results
      ((resolveAllResults r).players.map _) _ _ = resolveAllResults r
  rw [hmap]
  exact room_phase_eta _ hph

/-- C5. Double: a no-op unless the hand has exactly 2 cards and chips
cover the wager; when valid it deducts the wager once more, doubles the
recorded wager, draws exactly one card (leaving exactly 3), and the hand
ends busted with result loss iff the new total exceeds 21, else
standing — never playing. -/
theorem C5_double (c : Card) (p : RoomPlayer) (hi : Nat) (h : PlayerHand)
    (hp : p.hands[hi]? = some h) :
    (¬(h.cards.length = 2 ∧ h.bet ≤ p.chips) → handleDouble c p hi = p) ∧
    (h.cards.length = 2 → h.bet ≤ p.chips →
      (handleDouble c p hi).chips = p.chips - h.bet ∧
      ∃ h', (handleDouble c p hi).hands = p.hands.set hi h' ∧
        (handleDouble c p hi).hands[hi]? = some h' ∧
        h'.cards = h.cards ++ [c] ∧
        h'.cards.length = 3 ∧
        h'.bet = h.bet * 2 ∧
        (21 < (calculateHandValue h'.cards).1 →
          h'.status = HandStatus.busted ∧ h'.result = some HandResult.loss) ∧
        ((calculateHandValue h'.cards).1 ≤ 21 →
          h'.status = HandStatus.standing) ∧
        h'.status ≠ HandStatus.playing) := by
  have hilt : hi < p.hands.length := (List.getElem?_eq_some.mp hp).1
  constructor
  · intro hng
    by_cases h2 : h.cards.length = 2
    · have hlt : p.chips < h.bet := by
        rcases not_and_or.mp hng with hc | hc
        · exact absurd h2 hc
        · exact lt_of_not_le hc
      simp [handleDouble, hp, h2, hlt]
    · simp [handleDouble, hp, h2]
  · intro h2 hle
    have hlt : ¬ p.chips < h.bet := not_lt.mpr hle
    by_cases hbust : 21 < (calculateHandValue (h.cards ++ [c])).1
    · refine ⟨by simp [handleDouble, hp, h2, hlt, hbust],
        { h with cards := h.cards ++ [c], bet := h.bet * 2,
                 status := HandStatus.busted, result := some HandResult.loss },
        by simp [handleDouble, hp, h2, hlt, hbust], ?_, rfl,
        by simp [h2], rfl, fun _ => ⟨rfl, rfl⟩,
        fun hc => absurd hbust (not_lt.mpr hc),
        by simp⟩
      simp [handleDouble, hp, h2, hlt, hbust, List.getElem?_set_self hilt]
    · refine ⟨by simp [handleDouble, hp, h2, hlt, hbust],
        { h with cards := h.cards ++ [c], bet := h.bet * 2,
                 status := HandStatus.standing },
        by simp [handleDouble, hp, h2, hlt, hbust], ?_, rfl,
        by simp [h2], rfl, fun hc => absurd hc hbust, fun _ => rfl,
        by simp⟩
      simp [handleDouble, hp, h2, hlt, hbust, List.getElem?_set_self hilt]

/-- Witness for C5 at a concrete input: doubling `[8♦, 8♥]` (16) with a
drawn 5 leaves a standing 3-card 21 and chips down by the wager. -/
theorem C5_witness :
    (handleDouble (mkCard "♠" "5") samplePairPlayer 0).chips
      = samplePairPlayer.chips - 10 := by
  have hd := (C5_double (mkCard "♠" "5") samplePairPlayer 0
      { cards := [mkCard "♦" "8", mkCard "♥" "8"], bet := 10,
        status := HandStatus.playing, result := none }
      rfl).2 rfl (by decide)
  exact hd.1

/-- C6. Splitting a pair of aces replaces the hand by exactly two 2-card
hands, each wagering the original bet, both forced to standing; and no
hit or double (indeed no action at all) is ever accepted on a hand whose
status is not `playing`, which both are. -/
theorem C6_split_aces (d1 d2 : Card) (p : RoomPlayer) (hi : Nat)
    (h : PlayerHand) (a b : Card)
    (hp : p.hands[hi]? = some h) (hcards : h.cards = [a, b])
    (ha : a.rank = "A") (hb : b.rank = "A")
    (hlen : p.hands.length < 4) (hchips : h.bet ≤ p.chips) :
    (handleSplit d1 d2 p hi).hands
      = p.hands.take hi
        ++ [{ cards := [a, d1], bet := h.bet, status := HandStatus.standing,
              result := none },
            { cards := [b, d2], bet := h.bet, status := HandStatus.standing,
              result := none }]
        ++ p.hands.drop (hi + 1) ∧
    (handleSplit d1 d2 p hi).hands.length = p.hands.length + 1 ∧
    (handleSplit d1 d2 p hi).hands[hi]?
      = some { cards := [a, d1], bet := h.bet, status := HandStatus.standing,
               result := none } ∧
    (handleSplit d1 d2 p hi).hands[hi + 1]?
      = some { cards := [b, d2], bet := h.bet, status := HandStatus.standing,
               result := none } ∧
    (∀ (act : Action) (c1 c2 : Card) (q : RoomPlayer) (hj : Nat)
        (h' : PlayerHand), q.hands[hj]? = some h' →
        h'.status ≠ HandStatus.playing → playerAction act c1 c2 q hj = q) ∧
    (∀ (act : Action) (c1 c2 : Card),
      playerAction act c1 c2 (handleSplit d1 d2 p hi) hi
        = handleSplit d1 d2 p hi ∧
      playerAction act c1 c2 (handleSplit d1 d2 p hi) (hi + 1)
        = handleSplit d1 d2 p hi) := by
  have hilt : hi < p.hands.length := (List.getElem?_eq_some.mp hp).1
  have hpair : isStrictPair h.cards = true := by
    rw [hcards]; simp [isStrictPair, ha, hb]
  have hlen4 : ¬ 4 ≤ p.hands.length := not_le.mpr hlen
  have hlt : ¬ p.chips < h.bet := not_lt.mpr hchips
  have hpair' : isStrictPair [a, b] = true := by simp [isStrictPair, ha, hb]
  have hhands : (handleSplit d1 d2 p hi).hands
      = p.hands.take hi
        ++ [{ cards := [a, d1], bet := h.bet, status := HandStatus.standing,
              result := none },
            { cards := [b, d2], bet := h.bet, status := HandStatus.standing,
              result := none }]
        ++ p.hands.drop (hi + 1) := by
    simp [handleSplit, hp, hpair, hpair', hlen4, hlt, hcards, ha]
  have htk : (p.hands.take hi).length = hi := by
    simp [List.length_take, Nat.min_eq_left (Nat.le_of_lt hilt)]
  have hget1 : (handleSplit d1 d2 p hi).hands[hi]?
      = some { cards := [a, d1], bet := h.bet, status := HandStatus.standing,
               result := none } := by
    rw [hhands, List.append_assoc, List.getElem?_append_right (by omega), htk]
    simp
  have hget2 : (handleSplit d1 d2 p hi).hands[hi + 1]?
      = some { cards := [b, d2], bet := h.bet, status := HandStatus.standing,
               result := none } := by
    rw [hhands, List.append_assoc, List.getElem?_append_right (by omega), htk]
    simp
  have hnoop : ∀ (act : Action) (c1 c2 : Card) (q : RoomPlayer) (hj : Nat)
      (h' : PlayerHand), q.hands[hj]? = some h' →
      h'.status ≠ HandStatus.playing → playerAction act c1 c2 q hj = q := by
    intro act c1 c2 q hj h' hq hs
    simp [playerAction, hq, hs]
  refine ⟨hhands, ?_, hget1, hget2, hnoop, ?_⟩
  · rw [hhands]
    simp [htk]
    omega
  · intro act c1 c2
    exact ⟨hnoop act c1 c2 _ hi _ hget1 (by simp),
           hnoop act c1 c2 _ (hi + 1) _ hget2 (by simp)⟩

/-- Witness for C6 at a concrete input: splitting `[A♦, A♥]` with drawn
5♠/7♠ yields two standing hands, and a hit on the first is refused. -/
theorem C6_witness :
    (handleSplit (mkCard "♠" "5") (mkCard "♠" "7") sampleAcesPlayer 0).hands.length
      = sampleAcesPlayer.hands.length + 1 := by
  have hd := C6_split_aces (mkCard "♠" "5") (mkCard "♠" "7") sampleAcesPlayer 0
      { cards := [mkCard "♦" "A", mkCard "♥" "A"], bet := 10,
        status := HandStatus.playing, result := none }
      (mkCard "♦" "A") (mkCard "♥" "A") rfl rfl rfl rfl (by decide) (by decide)
  exact hd.2.1

/-! ### Chip-safety invariant -/

lemma specHandPayout_nonneg (dBJ dB : Bool) (dT : Nat) (h : PlayerHand)
    (hb : 0 ≤ h.bet) : 0 ≤ specHandPayout dBJ dB dT h := by
  unfold specHandPayout specPayout
  have hf : 0 ≤ (3 * h.bet).fdiv 2 := Int.fdiv_nonneg (by omega) (by omega)
  split_ifs <;> omega

lemma settleSpecHand_bet (dBJ dB : Bool) (dT : Nat) (h : PlayerHand) :
    (settleSpecHand dBJ dB dT h).bet = h.bet := by
  unfold settleSpecHand
  split <;> rfl

lemma invPlayer_resolvePlayer (dBJ dB : Bool) (dT : Nat) (p : RoomPlayer)
    (hp : InvPlayer p) : InvPlayer (resolvePlayer dBJ dB dT p) := by
  obtain ⟨hc, hcb, hb⟩ := hp
  rw [resolvePlayer_eq]
  refine ⟨?_, hcb, ?_⟩
  · have : 0 ≤ (p.hands.map (specHandPayout dBJ dB dT)).sum := by
      apply List.sum_nonneg
      intro x hx
      rw [List.mem_map] at hx
      obtain ⟨h0, hh0, he⟩ := hx
      rw [← he]
      exact specHandPayout_nonneg dBJ dB dT h0 (hb h0 hh0)
    show 0 ≤ p.chips + (p.hands.map (specHandPayout dBJ dB dT)).sum
    omega
  · intro h hh
    simp only [List.mem_map] at hh
    obtain ⟨h0, hh0, he⟩ := hh
    rw [← he, settleSpecHand_bet]
    exact hb h0 hh0

lemma resolvePlayer_chips_mono (dBJ dB : Bool) (dT : Nat) (p : RoomPlayer)
    (hp : InvPlayer p) : p.chips ≤ (resolvePlayer dBJ dB dT p).chips := by
  rw [resolvePlayer_eq]
  have h0 : 0 ≤ (p.hands.map (specHandPayout dBJ dB dT)).sum := by
    apply List.sum_nonneg
    intro x hx
    rw [List.mem_map] at hx
    obtain ⟨h0, hh0, he⟩ := hx
    rw [← he]
    exact specHandPayout_nonneg dBJ dB dT h0 (hp.2.2 h0 hh0)
  show p.chips ≤ p.chips + (p.hands.map (specHandPayout dBJ dB dT)).sum
  omega

lemma invRoom_resolveAllResults (r : Room) (h : InvRoom r) :
    InvRoom (resolveAllResults r) := by
  intro p hp
  simp only [resolveAllResults, List.mem_map] at hp
  obtain ⟨q, hq, he⟩ := hp
  rw [← he]
  exact invPlayer_resolvePlayer _ _ _ q (h q hq)

lemma invPlayer_handleHit (c : Card) (p : RoomPlayer) (hi : Nat)
    (hp : InvPlayer p) : InvPlayer (handleHit c p hi) := by
  obtain ⟨hc, hcb, hb⟩ := hp
  cases hget : p.hands[hi]? with
  | none =>
    have heq : handleHit c p hi = p := by simp [handleHit, hget]
    rw [heq]; exact ⟨hc, hcb, hb⟩
  | some hand =>
    have hbet := hb hand (List.getElem?_mem hget)
    have heq : (handleHit c p hi).chips = p.chips ∧
        (handleHit c p hi).currentBet = p.currentBet ∧
        (handleHit c p hi).hands = p.hands.set hi
          (if 21 < (calculateHandValue (hand.cards ++ [c])).1 then
            { hand with cards := hand.cards ++ [c], status := HandStatus.busted,
                        result := some HandResult.loss }
           else { hand with cards := hand.cards ++ [c] }) := by
      refine ⟨by simp only [handleHit, hget], by simp only [handleHit, hget], ?_⟩
      simp only [handleHit, hget]
    refine ⟨by rw [heq.1]; exact hc, by rw [heq.2.1]; exact hcb, ?_⟩
    intro h hh
    rw [heq.2.2] at hh
    rcases List.mem_or_eq_of_mem_set hh with hm | hm
    · exact hb h hm
    · rw [hm]
      split <;> simpa using hbet

lemma invPlayer_handleStand (p : RoomPlayer) (hi : Nat)
    (hp : InvPlayer p) : InvPlayer (handleStand p hi) := by
  obtain ⟨hc, hcb, hb⟩ := hp
  cases hget : p.hands[hi]? with
  | none =>
    have heq : handleStand p hi = p := by simp [handleStand, hget]
    rw [heq]; exact ⟨hc, hcb, hb⟩
  | some hand =>
    have heq : handleStand p hi
        = { p with hands := p.hands.set hi { hand with status := HandStatus.standing } } := by
      simp [handleStand, hget]
    rw [heq]
    refine ⟨hc, hcb, ?_⟩
    intro h hh
    rcases List.mem_or_eq_of_mem_set hh with hm | hm
    · exact hb h hm
    · rw [hm]
      simpa using hb hand (List.getElem?_mem hget)

lemma invPlayer_handleDouble (c : Card) (p : RoomPlayer) (hi : Nat)
    (hp : InvPlayer p) : InvPlayer (handleDouble c p hi) := by
  obtain ⟨hc, hcb, hb⟩ := hp
  cases hget : p.hands[hi]? with
  | none =>
    have heq : handleDouble c p hi = p := by simp [handleDouble, hget]
    rw [heq]; exact ⟨hc, hcb, hb⟩
  | some hand =>
    have hbet := hb hand (List.getElem?_mem hget)
    by_cases h2 : hand.cards.length = 2
    · by_cases hlt : p.chips < hand.bet
      · have heq : handleDouble c p hi = p := by
          simp [handleDouble, hget, h2, hlt]
        rw [heq]; exact ⟨hc, hcb, hb⟩
      · have heq : (handleDouble c p hi).chips = p.chips - hand.bet ∧
            (handleDouble c p hi).currentBet = p.currentBet ∧
            (handleDouble c p hi).hands = p.hands.set hi
              (if 21 < (calculateHandValue (hand.cards ++ [c])).1 then
                { hand with cards := hand.cards ++ [c], bet := hand.bet * 2,
                            status := HandStatus.busted,
                            result := some HandResult.loss }
               else
                { hand with cards := hand.cards ++ [c], bet := hand.bet * 2,
                            status := HandStatus.standing }) := by
          have hng : ¬ hand.cards.length ≠ 2 := by simp [h2]
          refine ⟨?_, ?_, ?_⟩ <;> simp only [handleDouble, hget] <;>
            rw [if_neg hng, if_neg hlt]
        refine ⟨by rw [heq.1]; omega, by rw [heq.2.1]; exact hcb, ?_⟩
        intro h hh
        rw [heq.2.2] at hh
        rcases List.mem_or_eq_of_mem_set hh with hm | hm
        · exact hb h hm
        · rw [hm]
          split <;> simp <;> omega
    · have heq : handleDouble c p hi = p := by
        simp [handleDouble, hget, h2]
      rw [heq]; exact ⟨hc, hcb, hb⟩

lemma invPlayer_handleSplit (d1 d2 : Card) (p : RoomPlayer) (hi : Nat)
    (hp : InvPlayer p) : InvPlayer (handleSplit d1 d2 p hi) := by
  obtain ⟨hc, hcb, hb⟩ := hp
  cases hget : p.hands[hi]? with
  | none =>
    have heq : handleSplit d1 d2 p hi = p := by simp [handleSplit, hget]
    rw [heq]; exact ⟨hc, hcb, hb⟩
  | some hand =>
    have hbet := hb hand (List.getElem?_mem hget)
    by_cases hpair : isStrictPair hand.cards = true
    · by_cases h4 : 4 ≤ p.hands.length
      · have heq : handleSplit d1 d2 p hi = p := by
          simp [handleSplit, hget, hpair, h4]
        rw [heq]; exact ⟨hc, hcb, hb⟩
      · by_cases hlt : p.chips < hand.bet
        · have heq : handleSplit d1 d2 p hi = p := by
            simp [handleSplit, hget, hpair, h4, hlt]
          rw [heq]; exact ⟨hc, hcb, hb⟩
        · obtain ⟨a, b, hcards, hrank⟩ :
              ∃ a b, hand.cards = [a, b] ∧ a.rank = b.rank := by
            match hcc : hand.cards, hpair with
            | [a, b], hpair =>
              exact ⟨a, b, rfl, by simpa [isStrictPair] using hpair⟩
          have hpair2 : isStrictPair [a, b] = true := by
            rw [← hcards]; exact hpair
          have heq : (handleSplit d1 d2 p hi).chips = p.chips - hand.bet ∧
              (handleSplit d1 d2 p hi).currentBet = p.currentBet ∧
              (handleSplit d1 d2 p hi).hands = p.hands.take hi
                ++ [{ cards := [a, d1], bet := hand.bet,
                      status := if a.rank = "A" then HandStatus.standing
                                else HandStatus.playing, result := none },
                    { cards := [b, d2], bet := hand.bet,
                      status := if a.rank = "A" then HandStatus.standing
                                else HandStatus.playing, result := none }]
                ++ p.hands.drop (hi + 1) := by
            have hng : ¬¬(isStrictPair [a, b] = true) := by simp [hpair2]
            refine ⟨?_, ?_, ?_⟩ <;> simp only [handleSplit, hget, hcards] <;>
              rw [if_neg hng, if_neg h4, if_neg hlt]
          refine ⟨by rw [heq.1]; omega, by rw [heq.2.1]; exact hcb, ?_⟩
          intro h hh
          rw [heq.2.2] at hh
          rcases List.mem_append.mp hh with hm | hm
          · rcases List.mem_append.mp hm with hm' | hm'
            · exact hb h (List.take_subset hi p.hands hm')
            · simp only [List.mem_cons, List.not_mem_nil, or_false] at hm'
              rcases hm' with hm'' | hm'' <;> rw [hm''] <;> simpa using hbet
          · exact hb h (List.drop_subset (hi + 1) p.hands hm)
    · have heq : handleSplit d1 d2 p hi = p := by
        simp only [Bool.not_eq_true] at hpair
        simp [handleSplit, hget, hpair]
      rw [heq]; exact ⟨hc, hcb, hb⟩

lemma invPlayer_playerAction (a : Action) (c1 c2 : Card) (p : RoomPlayer)
    (hi : Nat) (hp : InvPlayer p) : InvPlayer (playerAction a c1 c2 p hi) := by
  cases hget : p.hands[hi]? with
  | none =>
    have heq : playerAction a c1 c2 p hi = p := by simp [playerAction, hget]
    rw [heq]; exact hp
  | some hand =>
    by_cases hs : hand.status = HandStatus.playing
    · have heq : playerAction a c1 c2 p hi
          = match a with
            | .hit => handleHit c1 p hi
            | .stand => handleStand p hi
            | .double => handleDouble c1 p hi
            | .split => handleSplit c1 c2 p hi := by
        simp [playerAction, hget, hs]
      rw [heq]
      cases a with
      | hit => exact invPlayer_handleHit c1 p hi hp
      | stand => exact invPlayer_handleStand p hi hp
      | double => exact invPlayer_handleDouble c1 p hi hp
      | split => exact invPlayer_handleSplit c1 c2 p hi hp
    · have heq : playerAction a c1 c2 p hi = p := by
        simp [playerAction, hget, hs]
      rw [heq]; exact hp

lemma runDealerTurn_shape (σ : Nat → Card) (n : Nat) (r : Room) :
    ∃ d, (runDealerTurn σ n r).1 = resolveAllResults
      { code := r.code, hostId := r.hostId, phase := RoomPhase.dealer_turn,
        players := r.players, dealerHand := d, activePlayerId := none } := by
  unfold runDealerTurn
  exact ⟨_, rfl⟩

lemma invRoom_runDealerTurn (σ : Nat → Card) (n : Nat) (r : Room)
    (h : InvRoom r) : InvRoom (runDealerTurn σ n r).1 := by
  obtain ⟨d, hd⟩ := runDealerTurn_shape σ n r
  rw [hd]
  exact invRoom_resolveAllResults _ (fun p hp => h p hp)

lemma invPlayer_dealToPlayer (σ : Nat → Card) (n : Nat) (p : RoomPlayer)
    (hp : InvPlayer p) : InvPlayer (dealToPlayer σ n p).1 := by
  obtain ⟨hc, hcb, hb⟩ := hp
  by_cases hd : p.disconnected = true
  · have heq : (dealToPlayer σ n p).1 = p := by simp [dealToPlayer, hd]
    rw [heq]; exact ⟨hc, hcb, hb⟩
  · have heq : (dealToPlayer σ n p).1.chips = p.chips ∧
        (dealToPlayer σ n p).1.currentBet = p.currentBet ∧
        ∀ h ∈ (dealToPlayer σ n p).1.hands, h.bet = p.currentBet := by
      refine ⟨?_, ?_, ?_⟩ <;> simp [dealToPlayer, hd]
    refine ⟨by rw [heq.1]; exact hc, by rw [heq.2.1]; exact hcb, ?_⟩
    intro h hh
    rw [heq.2.2 h hh]
    exact hcb

lemma dealFold_mem (σ : Nat → Card) (L : List RoomPlayer) :
    ∀ (init : List RoomPlayer × Nat) (q : RoomPlayer),
      q ∈ (L.foldl
        (fun (acc : List RoomPlayer × Nat) p =>
          ((acc.1 ++ [(dealToPlayer σ acc.2 p).1], (dealToPlayer σ acc.2 p).2)))
        init).1 →
      q ∈ init.1 ∨ ∃ p ∈ L, ∃ m, q = (dealToPlayer σ m p).1 := by
  induction L with
  | nil => intro init q h; exact Or.inl h
  | cons p t ih =>
    intro init q h
    rw [List.foldl_cons] at h
    rcases ih _ q h with h' | h'
    · rcases List.mem_append.mp h' with h'' | h''
      · exact Or.inl h''
      · simp only [List.mem_singleton] at h''
        exact Or.inr ⟨p, List.mem_cons_self p t, init.2, h''⟩
    · obtain ⟨p', hp', m, hm⟩ := h'
      exact Or.inr ⟨p', List.mem_cons_of_mem p hp', m, hm⟩

lemma invRoom_placeBet (r : Room) (pid : String) (amount : Int)
    (h : InvRoom r) : InvRoom (placeBet r pid amount) := by
  by_cases hph : r.phase ≠ RoomPhase.betting
  · have heq : placeBet r pid amount = r := by simp [placeBet, hph]
    rw [heq]; exact h
  · cases hfi : r.players.findIdx? (fun p => p.playerId = pid) with
    | none =>
      have heq : placeBet r pid amount = r := by simp [placeBet, hph, hfi]
      rw [heq]; exact h
    | some i =>
      cases hget : r.players[i]? with
      | none =>
        have heq : placeBet r pid amount = r := by
          simp [placeBet, hph, hfi, hget]
        rw [heq]; exact h
      | some player =>
        by_cases hbet : player.hasBet = true
        · have heq : placeBet r pid amount = r := by
            simp [placeBet, hph, hfi, hget, hbet]
          rw [heq]; exact h
        · by_cases hamt : amount ≤ 0 ∨ player.chips < amount
          · have heq : placeBet r pid amount = r := by
              simp only [placeBet, hfi, hget]
              rw [if_neg hph, if_neg hbet, if_pos hamt]
            rw [heq]; exact h
          · have heq : placeBet r pid amount
                = { r with players := r.players.set i { player with currentBet := amount, chips := player.chips - amount, hasBet := true } } := by
              simp only [placeBet, hfi, hget]
              rw [if_neg hph, if_neg hbet, if_neg hamt]
            rw [heq]
            rw [not_or] at hamt
            intro q hq
            rcases List.mem_or_eq_of_mem_set hq with hm | hm
            · exact h q hm
            · have hpi := h player (List.getElem?_mem hget)
              rw [hm]
              exact ⟨by simp; omega, by simp; omega, by simpa using hpi.2.2⟩

lemma invRoom_dealRound (σ : Nat → Card) (n : Nat) (r : Room)
    (h : InvRoom r) : InvRoom (dealRound σ n r).1 := by
  have hfold : ∀ q ∈ ((r.players.foldl
      (fun (acc : List RoomPlayer × Nat) p =>
        ((acc.1 ++ [(dealToPlayer σ acc.2 p).1], (dealToPlayer σ acc.2 p).2)))
      ([], n)).1), InvPlayer q := by
    intro q hq
    rcases dealFold_mem σ r.players ([], n) q hq with hm | hm
    · simp at hm
    · obtain ⟨p, hp, m, he⟩ := hm
      rw [he]
      exact invPlayer_dealToPlayer σ m p (h p hp)
  simp only [dealRound]
  split
  · exact invRoom_resolveAllResults _ (fun q hq => hfold q hq)
  · split
    · exact fun q hq => hfold q hq
    · exact invRoom_runDealerTurn _ _ _ (fun q hq => hfold q hq)

/-- C7. Chip safety: a freshly seated player holds exactly 1000 chips and
satisfies the non-negativity invariant; and the invariant — non-negative
balance, recorded bet and hand wagers — is preserved by bet placement
(which checks `0 < amount ≤ chips` before deducting), by every player
action (double and split check `chips ≥ wager` before deducting), by the
deal, by the dealer turn, and by settlement, which moreover only ever
adds to a balance. -/
theorem C7_chip_safety :
    (∀ pid sid nm, (mkRoomPlayer pid sid nm).chips = 1000 ∧
      InvPlayer (mkRoomPlayer pid sid nm)) ∧
    (∀ (r : Room) (pid : String) (amount : Int),
      InvRoom r → InvRoom (placeBet r pid amount)) ∧
    (∀ (a : Action) (c1 c2 : Card) (p : RoomPlayer) (hi : Nat),
      InvPlayer p → InvPlayer (playerAction a c1 c2 p hi)) ∧
    (∀ (σ : Nat → Card) (n : Nat) (r : Room),
      InvRoom r → InvRoom (dealRound σ n r).1) ∧
    (∀ r : Room, InvRoom r → InvRoom (resolveAllResults r)) ∧
    (∀ (r : Room) (i : Nat) (p p' : RoomPlayer), InvRoom r →
      r.players[i]? = some p → (resolveAllResults r).players[i]? = some p' →
      p.chips ≤ p'.chips) ∧
    (∀ (σ : Nat → Card) (n : Nat) (r : Room),
      InvRoom r → InvRoom (runDealerTurn σ n r).1) := by
  refine ⟨?_, invRoom_placeBet, invPlayer_playerAction, invRoom_dealRound,
    invRoom_resolveAllResults, ?_, invRoom_runDealerTurn⟩
  · intro pid sid nm
    refine ⟨rfl, by norm_num [InvPlayer, mkRoomPlayer, STARTING_CHIPS]⟩
  · intro r i p p' hinv hp hp'
    have he : (resolveAllResults r).players[i]?
        = some (resolvePlayer
            (decide (r.dealerHand.length = 2 ∧ (calculateHandValue r.dealerHand).1 = 21))
            (decide (21 < (calculateHandValue r.dealerHand).1))
            (calculateHandValue r.dealerHand).1 p) := by
      simp only [resolveAllResults, List.getElem?_map, hp, Option.map_some']
    rw [he] at hp'
    have := resolvePlayer_chips_mono
        (decide (r.dealerHand.length = 2 ∧ (calculateHandValue r.dealerHand).1 = 21))
        (decide (21 < (calculateHandValue r.dealerHand).1))
        (calculateHandValue r.dealerHand).1 p
        (hinv p (List.getElem?_mem hp))
    have hpe : p' = resolvePlayer
        (decide (r.dealerHand.length = 2 ∧ (calculateHandValue r.dealerHand).1 = 21))
        (decide (21 < (calculateHandValue r.dealerHand).1))
        (calculateHandValue r.dealerHand).1 p := by
      exact Option.some.inj hp'.symm
    rw [hpe]
    exact this

/-- Witness for C7's inner hypotheses at a concrete input: placing a bet
of 50 on a fresh one-player lobby room preserves the invariant. -/
theorem C7_witness :
    InvRoom (placeBet
      { code := "2000", hostId := "p9", phase := RoomPhase.betting,
        players := [mkRoomPlayer "p9" "s9" "n9"], dealerHand := [],
        activePlayerId := none } "p9" 50) := by
  apply C7_chip_safety.2.1
  intro p hp
  simp only [List.mem_singleton] at hp
  rw [hp]
  exact (C7_chip_safety.1 "p9" "s9" "n9").2

/-- C9. `join-room` fails exactly when the room does not exist, or its
phase is not `lobby`, or 7 seats are taken, or the identity is already
seated; every failure leaves the room unchanged, and a success seats the
player with 1000 chips, no hands and no bet. -/
theorem C9_join_room :
    (∀ nm pid sid, joinRoom none nm pid sid = (none, some "Room not found")) ∧
    (∀ (r : Room) (nm pid sid : String),
      ((joinRoom (some r) nm pid sid).2.isSome = true ↔
        (r.phase ≠ RoomPhase.lobby ∨ 7 ≤ r.players.length ∨
         pid ∈ r.players.map RoomPlayer.playerId)) ∧
      ((joinRoom (some r) nm pid sid).2.isSome = true →
        (joinRoom (some r) nm pid sid).1 = some r) ∧
      ((joinRoom (some r) nm pid sid).2 = none →
        (joinRoom (some r) nm pid sid).1
          = some { r with players := r.players ++ [mkRoomPlayer pid sid nm] })) ∧
    (∀ pid sid nm, (mkRoomPlayer pid sid nm).chips = 1000 ∧
      (mkRoomPlayer pid sid nm).hands = [] ∧
      (mkRoomPlayer pid sid nm).currentBet = 0 ∧
      (mkRoomPlayer pid sid nm).hasBet = false) := by
  refine ⟨fun nm pid sid => rfl, ?_, fun pid sid nm => ⟨rfl, rfl, rfl, rfl⟩⟩
  intro r nm pid sid
  have hseat : (r.players.any (fun p => p.playerId = pid) = true) ↔
      pid ∈ r.players.map RoomPlayer.playerId := by
    simp [List.any_eq_true, List.mem_map]
  by_cases h1 : r.phase ≠ RoomPhase.lobby
  · simp [joinRoom, h1]
  · by_cases h2 : 7 ≤ r.players.length
    · simp [joinRoom, h1, h2]
    · by_cases h3 : r.players.any (fun p => p.playerId = pid) = true
      · refine ⟨?_, ?_, ?_⟩ <;> simp [joinRoom, h1, h2, h3, hseat.mp h3]
      · have h3' : ¬ pid ∈ r.players.map RoomPlayer.playerId :=
          fun hm => h3 (hseat.mpr hm)
        refine ⟨?_, ?_, ?_⟩ <;> simp [joinRoom, h1, h2, h3, h3']

/-! ### Roster tracking through next-round removals -/

lemma rosterView_resolveAllResults (r : Room) :
    rosterView (resolveAllResults r) = rosterView r := by
  show ((resolveAllResults r).players.map fun p => (p.playerId, p.disconnected))
    = r.players.map fun p => (p.playerId, p.disconnected)
  simp only [resolveAllResults, List.map_map]
  apply List.map_congr_left
  intro p _
  simp [Function.comp, resolvePlayer_eq]

lemma rosterView_runDealerTurn (σ : Nat → Card) (n : Nat) (r : Room) :
    rosterView (runDealerTurn σ n r).1 = rosterView r := by
  obtain ⟨d, hd⟩ := runDealerTurn_shape σ n r
  rw [hd, rosterView_resolveAllResults]
  rfl

lemma rosterView_advance (σ : Nat → Card) (n : Nat) (r : Room) :
    rosterView (advanceToNextPlayer σ n r).1 = rosterView r := by
  simp only [advanceToNextPlayer]
  split
  · rfl
  · exact rosterView_runDealerTurn σ n r

lemma rosterView_removePlayer (σ : Nat → Card) (n : Nat) (pid : String)
    (r : Room) :
    rosterView (removePlayer σ n pid r).1
      = (rosterView r).filter (fun q => q.1 ≠ pid) := by
  have hview : ∀ x : Room, x.players = r.players.filter (fun p => p.playerId ≠ pid) →
      rosterView x = (rosterView r).filter (fun q => q.1 ≠ pid) := by
    intro x hx
    show (x.players.map fun p => (p.playerId, p.disconnected)) = _
    rw [hx, rosterView, List.filter_map]
    rfl
  simp only [removePlayer]
  split
  · exact hview _ rfl
  · split <;> split <;>
      first
      | (rw [rosterView_advance]; exact hview _ rfl)
      | exact hview _ rfl

lemma removal_fold (σ : Nat → Card) (L : List RoomPlayer) :
    ∀ rn : Room × Nat,
      rosterView ((L.foldl
        (fun (acc : Room × Nat) p =>
          if p.disconnected then removePlayer σ acc.2 p.playerId acc.1 else acc)
        rn).1)
      = (rosterView rn.1).filter
          (fun q => L.all fun p => !(p.disconnected && p.playerId == q.1)) := by
  induction L with
  | nil =>
    intro rn
    simp [List.filter_true]
  | cons p t ih =>
    intro rn
    rw [List.foldl_cons]
    by_cases hd : p.disconnected = true
    · rw [if_pos hd, ih, rosterView_removePlayer, List.filter_filter]
      apply List.filter_congr
      intro q _
      simp only [List.all_cons, hd, Bool.true_and]
      by_cases hq : p.playerId == q.1
      · have : q.1 = p.playerId := by
          have := of_decide_eq_true hq
          exact this.symm
        simp [hq, this]
      · simp only [Bool.not_eq_true] at hq
        have hne : (q.1 ≠ p.playerId) = True := by
          simp only [eq_iff_iff, iff_true]
          intro he
          rw [he] at hq
          simp at hq
        simp [hq, hne]
    · rw [if_neg hd, ih]
      apply List.filter_congr
      intro q _
      simp only [List.all_cons]
      simp only [Bool.not_eq_true] at hd
      simp [hd]

lemma removals_eq_filter (σ : Nat → Card) (r : Room) (n : Nat)
    (hnd : (r.players.map RoomPlayer.playerId).Nodup) :
    rosterView ((r.players.foldl
      (fun (acc : Room × Nat) p =>
        if p.disconnected then removePlayer σ acc.2 p.playerId acc.1 else acc)
      (r, n)).1)
    = (rosterView r).filter (fun q => !q.2) := by
  rw [removal_fold]
  apply List.filter_congr
  intro q hq
  obtain ⟨P, hP, hPq⟩ := List.mem_map.mp hq
  by_cases hPd : P.disconnected = true
  · have hall : (r.players.all fun p => !(p.disconnected && p.playerId == q.1))
        = false := by
      rw [List.all_eq_false]
      refine ⟨P, hP, ?_⟩
      have h1 : P.playerId == q.1 := by
        rw [← hPq]
        simp
      simp [hPd, h1]
    rw [hall, ← hPq]
    simp [hPd]
  · simp only [Bool.not_eq_true] at hPd
    have hall : (r.players.all fun p => !(p.disconnected && p.playerId == q.1))
        = true := by
      rw [List.all_eq_true]
      intro p hp
      by_cases hpi : p.playerId == q.1
      · have hpe : p = P := by
          apply List.inj_on_of_nodup_map hnd hp hP
          have h1 : p.playerId = q.1 := of_decide_eq_true hpi
          have h2 : P.playerId = q.1 := by rw [← hPq]
          rw [h1, h2]
        rw [hpe, hPd]
        simp
      · simp only [Bool.not_eq_true] at hpi
        simp [hpi]
    rw [hall, ← hPq]
    simp [hPd]

/-- C10. Neither `start-game` nor `next-round` checks the room's phase:
in every phase (player_turns and dealer_turn included), a request from
the current host moves the room to `betting` and clears every player's
bet, hands and done flag (`start-game` additionally needs a non-empty
roster, which the seated host guarantees); `next-round` first removes
every still-disconnected player (roster stated under the `Map`-key
uniqueness `Nodup` of the player ids), keeping exactly the connected
ones. -/
theorem C10_no_phase_guard :
    (∀ (r : Room) (sender : String), r.hostId = sender → r.players ≠ [] →
      startGame r sender
        = { r with phase := RoomPhase.betting, dealerHand := [],
                   players := r.players.map clearPlayer }) ∧
    (∀ (σ : Nat → Card) (n : Nat) (r : Room) (sender : String),
      r.hostId = sender → (r.players.map RoomPlayer.playerId).Nodup →
      (nextRound σ n r sender).1.phase = RoomPhase.betting ∧
      (nextRound σ n r sender).1.dealerHand = [] ∧
      (nextRound σ n r sender).1.activePlayerId = none ∧
      (∀ p ∈ (nextRound σ n r sender).1.players,
        p.hands = [] ∧ p.currentBet = 0 ∧ p.hasBet = false ∧
        p.isDone = false) ∧
      (nextRound σ n r sender).1.players.map RoomPlayer.playerId
        = (r.players.filter (fun p => !p.disconnected)).map
            RoomPlayer.playerId) := by
  constructor
  · intro r sender hhost hne
    have h1 : ¬ r.hostId ≠ sender := by simp [hhost]
    have h2 : ¬ r.players.length < 1 := by
      simp only [not_lt, Nat.one_le_iff_ne_zero]
      simpa [List.length_eq_zero] using hne
    simp only [startGame]
    rw [if_neg h1, if_neg h2]
  · intro σ n r sender hhost hnd
    have h1 : ¬ r.hostId ≠ sender := by simp [hhost]
    have heq : nextRound σ n r sender
        = ({ (r.players.foldl
              (fun (acc : Room × Nat) p =>
                if p.disconnected then removePlayer σ acc.2 p.playerId acc.1
                else acc) (r, n)).1 with
             phase := RoomPhase.betting, dealerHand := [],
             activePlayerId := none,
             players := ((r.players.foldl
              (fun (acc : Room × Nat) p =>
                if p.disconnected then removePlayer σ acc.2 p.playerId acc.1
                else acc) (r, n)).1).players.map clearPlayer },
           (r.players.foldl
              (fun (acc : Room × Nat) p =>
                if p.disconnected then removePlayer σ acc.2 p.playerId acc.1
                else acc) (r, n)).2) := by
      simp only [nextRound]
      rw [if_neg h1]
    rw [heq]
    refine ⟨rfl, rfl, rfl, ?_, ?_⟩
    · intro p hp
      simp only [List.mem_map] at hp
      obtain ⟨q, _, he⟩ := hp
      rw [← he]
      simp [clearPlayer]
    · have hview := removals_eq_filter σ r n hnd
      have hid : ∀ x : Room, x.players.map RoomPlayer.playerId
          = (rosterView x).map Prod.fst := by
        intro x
        rw [rosterView, List.map_map]
        rfl
      show ((r.players.foldl _ (r, n)).1.players.map clearPlayer).map
          RoomPlayer.playerId = _
      rw [List.map_map]
      have hcp : ((r.players.foldl
          (fun (acc : Room × Nat) p =>
            if p.disconnected then removePlayer σ acc.2 p.playerId acc.1
            else acc) (r, n)).1.players).map (RoomPlayer.playerId ∘ clearPlayer)
          = ((r.players.foldl
          (fun (acc : Room × Nat) p =>
            if p.disconnected then removePlayer σ acc.2 p.playerId acc.1
            else acc) (r, n)).1.players).map RoomPlayer.playerId := by
        apply List.map_congr_left
        intro q _
        simp [clearPlayer, Function.comp]
      rw [hcp, hid, hview, rosterView, List.filter_map, List.map_map]
      rfl

/-- Witness for C10 at a concrete input: a host next-round request on a
two-player room in `player_turns` with one disconnected player lands in
`betting`. -/
theorem C10_witness :
    (nextRound (fun _ => mkCard "♠" "5") 0
      { code := "3000", hostId := "p1", phase := RoomPhase.player_turns,
        players := [samplePlayer,
          { playerId := "p4", socketId := "s4", name := "n4", chips := 1000,
            hands := [], currentBet := 0, hasBet := false, isDone := false,
            disconnected := true }],
        dealerHand := [mkCard "♠" "K", mkCard "♥" "Q"],
        activePlayerId := some "p1" } "p1").1.phase = RoomPhase.betting :=
  ((C10_no_phase_guard.2 (fun _ => mkCard "♠" "5") 0
    { code := "3000", hostId := "p1", phase := RoomPhase.player_turns,
      players := [samplePlayer,
        { playerId := "p4", socketId := "s4", name := "n4", chips := 1000,
          hands := [], currentBet := 0, hasBet := false, isDone := false,
          disconnected := true }],
      dealerHand := [mkCard "♠" "K", mkCard "♥" "Q"],
      activePlayerId := some "p1" } "p1" rfl (by decide)).1)

end Blackjack
